import Mathlib

set_option maxHeartbeats 1000000

/-! Shallow embedding of the `WebCrawler` class in `crawl.py` from the
docs-page-crawler repository.

`String` models Python `str`; `List String` models the crawler's
`visited_urls` set (the engine inserts each URL at most once, so the list
never carries duplicates); the mutually inductive `Node`/`Forest` type
models the BeautifulSoup document tree, with the attributes the source
reads (`class`, `id`, `href`) as explicit fields.  Exceptions caught by
the source are made explicit: a failing fetch/parse is `Option.none`, a
failing sink append is a boolean oracle in the environment. -/

/-! ### Python string primitives used by `crawl.py` -/

/-- Python whitespace, as used by no-argument `str.split()` and `str.strip()`. -/
def isPySpace (c : Char) : Bool :=
  c == ' ' || c == '\t' || c == '\n' || c == '\r' || c == '\x0b' || c == '\x0c'

/-- Model of `str.lower()` on the ASCII strings the crawler handles. -/
def strLower (s : String) : String := String.mk (s.toList.map Char.toLower)

/-- Character-list test: does the second list start with the first? -/
def chStarts : List Char → List Char → Bool
  | [], _ => true
  | _ :: _, [] => false
  | p :: ps, c :: cs => p == c && chStarts ps cs

/-- Contiguous-substring test on character lists (Python `sub in s`). -/
def chHas (pat : List Char) : List Char → Bool
  | [] => chStarts pat []
  | c :: cs => chStarts pat (c :: cs) || chHas pat cs

/-- Python `s.startswith(pat)`. -/
def strStarts (pat s : String) : Bool := chStarts pat.toList s.toList

/-- Python `s.endswith(pat)`: a case-sensitive suffix test on the whole string. -/
def strEnds (pat s : String) : Bool := chStarts pat.toList.reverse s.toList.reverse

/-- Python `pat in s`: a case-sensitive substring test. -/
def strHas (pat s : String) : Bool := chHas pat.toList s.toList

/-- Worker for `pyWords`: accumulates the current word (reversed) while
scanning the character list. -/
def wordsAux : List Char → List Char → List String
  | acc, [] => if acc.isEmpty then [] else [String.mk acc.reverse]
  | acc, c :: cs =>
    if isPySpace c then
      if acc.isEmpty then wordsAux [] cs
      else String.mk acc.reverse :: wordsAux [] cs
    else wordsAux (c :: acc) cs

/-- Python no-argument `str.split()`: split on runs of whitespace, dropping
empty tokens. -/
def pyWords (s : String) : List String := wordsAux [] s.toList

/-- Worker for `splitLines`. -/
def splitAux : List Char → List Char → List String
  | acc, [] => [String.mk acc.reverse]
  | acc, c :: cs =>
    if c == '\n' then String.mk acc.reverse :: splitAux [] cs
    else splitAux (c :: acc) cs

/-- Python `str.split('\n')`: keeps empty pieces, `"".split('\n') = [""]`. -/
def splitLines (s : String) : List String := splitAux [] s.toList

/-- Python `sep.join(xs)`. -/
def joinWith (sep : String) : List String → String
  | [] => ""
  | [w] => w
  | w :: v :: rest => w ++ sep ++ joinWith sep (v :: rest)

/-- Python no-argument `str.strip()`. -/
def pyStrip (s : String) : String :=
  String.mk (((s.toList.dropWhile isPySpace).reverse.dropWhile isPySpace).reverse)

/-! ### URL primitives

Models of the `urllib.parse` calls `crawl.py` makes (`urlparse` for
`netloc`/`path`, `urljoin` for reference resolution). -/

/-- Characters allowed in a URL scheme after the initial letter. -/
def isSchemeChar (c : Char) : Bool := c.isAlphanum || c == '+' || c == '-' || c == '.'

/-- Modelled from `urllib.parse.urlparse`: the scheme of a URL, `""` when absent. -/
def schemeOf (url : String) : String :=
  match url.toList with
  | [] => ""
  | c :: _ =>
    if c.isAlpha then
      let pre := url.toList.takeWhile isSchemeChar
      match url.toList.drop pre.length with
      | ':' :: _ => String.mk pre
      | _ => ""
    else ""

/-- The URL with its scheme and the following `:` removed (unchanged when
there is no scheme). -/
def afterScheme (url : String) : String :=
  if schemeOf url == "" then url
  else String.mk (url.toList.drop ((schemeOf url).toList.length + 1))

/-- Modelled from `urllib.parse.urlparse(url).netloc`: the authority between
`//` and the next `/`, `?` or `#`; `""` when the URL has no `//` part. -/
def netlocOf (url : String) : String :=
  match (afterScheme url).toList with
  | '/' :: '/' :: tail =>
    String.mk (tail.takeWhile (fun c => c != '/' && c != '?' && c != '#'))
  | _ => ""

/-- Modelled from `urllib.parse.urlparse(url).path`: what follows the
authority, up to `?` or `#`. -/
def pathOf (url : String) : String :=
  let rest := (afterScheme url).toList
  let afterNet :=
    match rest with
    | '/' :: '/' :: tail => tail.dropWhile (fun c => c != '/' && c != '?' && c != '#')
    | _ => rest
  String.mk (afterNet.takeWhile (fun c => c != '?' && c != '#'))

/-- Directory part of a path: everything up to and including the last `/`,
or `/` when the path has none. -/
def dirPath (p : String) : String :=
  if p.toList.contains '/' then
    String.mk ((p.toList.reverse.dropWhile (fun c => c != '/')).reverse)
  else "/"

/-- Modelled from `urllib.parse.urljoin`, restricted to the reference forms
the crawler meets: absolute, protocol-relative, root-relative, and plain
relative references without dot segments. -/
def urljoin (base url : String) : String :=
  if url == "" then base
  else if schemeOf url != "" then url
  else if strStarts "//" url then schemeOf base ++ ":" ++ url
  else if strStarts "/" url then schemeOf base ++ "://" ++ netlocOf base ++ url
  else schemeOf base ++ "://" ++ netlocOf base ++ dirPath (pathOf base) ++ url

/-! ### Document tree

Model of the BeautifulSoup tree.  A `Forest` is the list of top-level
nodes of a parsed document (`soup.find_all` searches descendants, never
the `BeautifulSoup` object itself, so the root needs no own node).  An
element carries exactly the attributes the source reads: its tag name,
the multi-valued `class` attribute, the `id` attribute, and the `href`
attribute. -/

mutual
inductive Node where
  | text (s : String) : Node
  | elem (tag : String) (classes : List String) (idAttr : Option String)
      (href : Option String) (children : Forest) : Node
inductive Forest where
  | nil : Forest
  | cons (n : Node) (f : Forest) : Forest
end

/-- Builds a `Forest` from a list of nodes (notation helper for examples). -/
def fOf : List Node → Forest
  | [] => .nil
  | n :: ns => .cons n (fOf ns)

/-- All nodes of a forest, pre-order, each element paired with its whole
subtree (model of `soup.find_all()`'s result list). -/
def subForest : Forest → List Node
  | .nil => []
  | .cons (.text s) f => Node.text s :: subForest f
  | .cons (.elem t c i h ch) f => Node.elem t c i h ch :: (subForest ch ++ subForest f)

/-- All text-node strings of a forest in document order (what
`get_text(separator=' ')` joins with single spaces). -/
def forestStrings : Forest → List String
  | .nil => []
  | .cons (.text s) f => s :: forestStrings f
  | .cons (.elem _ _ _ _ ch) f => forestStrings ch ++ forestStrings f

/-- `content.get_text(separator=' ')` in `extract_text`. -/
def get_text (f : Forest) : String := joinWith " " (forestStrings f)

/-- The `href` values of all `<a>` elements in document order, present
attributes only (model of `soup.find_all('a')` + `link.get('href')` in
`get_links`; an absent `href` contributes nothing). -/
def anchorHrefsF : Forest → List String
  | .nil => []
  | .cons (.text _) f => anchorHrefsF f
  | .cons (.elem t _ _ hr ch) f =>
    (if t == "a" then hr.toList else []) ++ (anchorHrefsF ch ++ anchorHrefsF f)

/-- First element, pre-order, whose tag is in `tags` (model of
`soup.find(['main', 'article'])`). -/
def findTagF (tags : List String) : Forest → Option Node
  | .nil => none
  | .cons (.text _) f => findTagF tags f
  | .cons (.elem t c i h ch) f =>
    if tags.contains t then some (.elem t c i h ch)
    else
      match findTagF tags ch with
      | some n => some n
      | none => findTagF tags f

/-- Does one of the element's class tokens match the regular expression
`content|main|article` (an unanchored, case-sensitive `re.search`)? -/
def contentClassHit (classes : List String) : Bool :=
  classes.any (fun cl => strHas "content" cl || strHas "main" cl || strHas "article" cl)

/-- First element, pre-order, with a class token matching
`content|main|article` (model of
`soup.find(class_=re.compile(r'content|main|article'))`). -/
def findContentClassF : Forest → Option Node
  | .nil => none
  | .cons (.text _) f => findContentClassF f
  | .cons (.elem t c i h ch) f =>
    if contentClassHit c then some (.elem t c i h ch)
    else
      match findContentClassF ch with
      | some n => some n
      | none => findContentClassF f

/-! ### Boilerplate classifier (`WebCrawler.is_navigation_element`) -/

/-- `self.nav_patterns['tags']`. -/
def navTags : List String := ["nav", "header", "footer"]

/-- `self.nav_patterns['classes']`; the source's `'ids'` entry is the same
set of keywords. -/
def navKeywords : List String :=
  ["navigation", "nav", "navbar", "menu", "header", "footer", "bottom"]

/-- The fuzzy fallback patterns checked against the joined `class` value and
the `id` value. -/
def fuzzyKeywords : List String := ["nav", "menu", "header", "footer"]

/-- `WebCrawler.is_navigation_element`, on the element data it reads.  The
source returns `True` at the first matching rule and `False` at the end,
which is the boolean disjunction of the five rules: tag membership; a
lowercased class token equal to a keyword; a keyword occurring as a
substring of the lowercased `id` (absent `id` reads as `""`); a fuzzy
keyword occurring in the lowercased space-joined `class` value; a fuzzy
keyword occurring in the lowercased `id` value. -/
def is_navigation_element (tag : String) (classes : List String)
    (idAttr : Option String) : Bool :=
  navTags.contains tag ||
  navKeywords.any (fun p => (classes.map strLower).contains p) ||
  navKeywords.any (fun p => strHas p (strLower (idAttr.getD ""))) ||
  fuzzyKeywords.any (fun p => strHas p (strLower (joinWith " " classes))) ||
  fuzzyKeywords.any (fun p => strHas p (strLower (idAttr.getD "")))

/-- Is a tree node classified as chrome by the classifier?  Text nodes have
no tag and never classify as chrome. -/
def nodeChrome : Node → Bool
  | .text _ => false
  | .elem t c i _ _ => is_navigation_element t c i

/-! ### Content filter (`WebCrawler.extract_text`) -/

/-- The tags removed unconditionally before the classifier pass:
`soup(['script', 'style', 'head', 'noscript', 'iframe'])`. -/
def stripTags : List String := ["script", "style", "head", "noscript", "iframe"]

/-- Predicate for the unconditional first removal pass. -/
def stripPred (tag : String) (_classes : List String) (_idAttr : Option String) : Bool :=
  stripTags.contains tag

/-- Predicate for the classifier removal pass. -/
def navPred (tag : String) (classes : List String) (idAttr : Option String) : Bool :=
  is_navigation_element tag classes idAttr

/-- Removes every element (with its whole subtree) satisfying `p`.  This is
the effect of the source's `find_all()` snapshot + `element.decompose()`
loop: a decomposed element leaves the tree together with its descendants,
and `p` reads only the element's own tag and attributes, so the loop is
the recursive top-down filter. -/
def pruneForest (p : String → List String → Option String → Bool) : Forest → Forest
  | .nil => .nil
  | .cons (.text s) f => .cons (.text s) (pruneForest p f)
  | .cons (.elem t c i h ch) f =>
    if p t c i then pruneForest p f
    else .cons (.elem t c i h (pruneForest p ch)) (pruneForest p f)

/-- The soup after `extract_text`'s two destructive passes: the
script/style/head/noscript/iframe removal, then the chrome removal.  The
source mutates its argument; this function is that mutation's result. -/
def extractTextTree (soup : Forest) : Forest :=
  pruneForest navPred (pruneForest stripPred soup)

/-- The per-line filter of `extract_text`'s final step: keep a line when it
has more than 3 whitespace-delimited tokens and its lowercasing contains
none of the three banned substrings. -/
def lineFilter (line : String) : Bool :=
  decide (3 < (pyWords line).length) &&
  !(["menu", "navigation", "skip to content"].any (fun nav => strHas nav (strLower line)))

/-- The content region `extract_text` reads: a semantic `main`/`article`
element if present, else the first element with a `content|main|article`
class, else the whole (already filtered) soup. -/
def chooseRegion (filtered : Forest) : Forest :=
  match findTagF ["main", "article"] filtered with
  | some n => Forest.cons n Forest.nil
  | none =>
    match findContentClassF filtered with
    | some n => Forest.cons n Forest.nil
    | none => filtered

/-- `extract_text`'s line-based cleanup: split on newlines, filter, rejoin. -/
def cleanLines (collapsed : String) : String :=
  joinWith "\n" ((splitLines collapsed).filter lineFilter)

/-- The pure tail of `extract_text` run on the already-filtered soup:
choose the region, get its text with `' '` separators, return `""` on
empty text, collapse whitespace with `' '.join(text.split())`, then apply
the line filter. -/
def extractFrom (filtered : Forest) : String :=
  if get_text (chooseRegion filtered) == "" then ""
  else cleanLines (joinWith " " (pyWords (get_text (chooseRegion filtered))))

/-- `WebCrawler.extract_text`: destructively filters the soup (see
`extractTextTree`) and extracts the cleaned text from it. -/
def extract_text (soup : Forest) : String := extractFrom (extractTextTree soup)

/-! ### Link extractor (`WebCrawler.is_valid_url`, `WebCrawler.get_links`) -/

/-- `WebCrawler.is_valid_url`: same netloc as the seed's, not already
visited, and the full URL string does not end in one of the four asset
extensions (`url.endswith(('.pdf', '.jpg', '.png', '.gif'))` runs on the
whole URL string, query and fragment included). -/
def is_valid_url (domain : String) (visited : List String) (url : String) : Bool :=
  (netlocOf url == domain) && !(visited.contains url) &&
  !(strEnds ".pdf" url || strEnds ".jpg" url || strEnds ".png" url || strEnds ".gif" url)

/-- Set insertion for the `links` accumulator (`links.add(absolute_url)`);
the model fixes first-insertion order where CPython's set iteration order
is unspecified. -/
def insertLink (links : List String) (u : String) : List String :=
  if links.contains u then links else links ++ [u]

/-- One iteration of `get_links`'s loop body: skip falsy hrefs, resolve,
keep the URL when `is_valid_url` accepts it. -/
def linkStep (domain : String) (visited : List String) (cur : String)
    (acc : List String) (href : String) : List String :=
  if href != "" then
    if is_valid_url domain visited (urljoin cur href) then insertLink acc (urljoin cur href)
    else acc
  else acc

/-- `WebCrawler.get_links`: all valid absolute links of the page. -/
def get_links (domain : String) (visited : List String) (soup : Forest)
    (cur : String) : List String :=
  (anchorHrefsF soup).foldl (linkStep domain visited cur) []

/-! ### Traversal engine (`WebCrawler._crawl_url`, `WebCrawler.crawl`) -/

/-- The mutable crawler state plus the observable trace of one run:
`visited` is `self.visited_urls` (most recent first), `fetched` records
each URL handed to `requests.get` in order, `written` the records appended
to the sink, and `errors` the URLs whose processing raised into the
per-URL `except` handler. -/
structure CrawlState where
  visited : List String
  fetched : List String
  written : List (String × String)
  errors : List String
deriving DecidableEq, Repr

/-- The crawler's external collaborators: `pages url` is the outcome of
fetch + `raise_for_status` + parse (`none` for a transport error, a
non-success status, or an unparseable body), and `sinkFails url` says
whether the sink append for that URL's record raises. -/
structure CrawlEnv where
  pages : String → Option Forest
  sinkFails : String → Bool

/-- The state `crawl` starts from. -/
def initState : CrawlState := ⟨[], [], [], []⟩

/-- `WebCrawler._crawl_url`, with the call stack made explicit as fuel (the
source recurses without bound; fuel exhaustion models the stack limit).
Steps: return when the URL is visited; insert into `visited`; fetch+parse
(`none` lands in the `except` handler: log the error, return); extract
text from the soup, destructively filtering it; append the record when
the stripped text is non-empty, a failing append landing in the same
`except` handler; harvest links from the now-filtered soup and recurse on
each in order. -/
def crawlUrl (env : CrawlEnv) (domain : String) : Nat → String → CrawlState → CrawlState
  | 0, _, s => s
  | fuel + 1, url, s =>
    if s.visited.contains url then s
    else
      match env.pages url with
      | none =>
        { visited := url :: s.visited, fetched := s.fetched ++ [url],
          written := s.written, errors := s.errors ++ [url] }
      | some soup =>
        if pyStrip (extract_text soup) != "" && env.sinkFails url then
          { visited := url :: s.visited, fetched := s.fetched ++ [url],
            written := s.written, errors := s.errors ++ [url] }
        else
          let s3 : CrawlState :=
            { visited := url :: s.visited, fetched := s.fetched ++ [url],
              written :=
                if pyStrip (extract_text soup) != "" then
                  s.written ++ [(url, extract_text soup)]
                else s.written,
              errors := s.errors }
          (get_links domain s3.visited (extractTextTree soup) url).foldl
            (fun t l => crawlUrl env domain fuel l t) s3

/-- `WebCrawler.crawl`: runs `_crawl_url` from the seed with the domain
computed in `__init__` as `urlparse(base_url).netloc`, starting from an
empty visited set. -/
def crawl (env : CrawlEnv) (base : String) (fuel : Nat) : CrawlState :=
  crawlUrl env (netlocOf base) fuel base initState

/-! ### String-pipeline lemmas -/

@[simp] theorem toList_mk (l : List Char) : (String.mk l).toList = l := rfl

@[simp] theorem mk_toList (s : String) : String.mk s.toList = s := rfl

theorem toList_append (a b : String) : (a ++ b).toList = a.toList ++ b.toList := rfl

/-- Every word produced by `wordsAux` consists of non-whitespace characters,
provided the accumulator does. -/
theorem wordsAux_nospace : (cs : List Char) → ∀ (acc : List Char),
    (∀ c ∈ acc, isPySpace c = false) →
    ∀ w ∈ wordsAux acc cs, ∀ c ∈ w.toList, isPySpace c = false
  | [], acc => by
    intro hacc w hw c hc
    unfold wordsAux at hw
    split at hw
    · simp at hw
    · simp only [List.mem_singleton] at hw
      subst hw
      simp only [toList_mk, List.mem_reverse] at hc
      exact hacc c hc
  | ch :: cs, acc => by
    intro hacc w hw c hc
    unfold wordsAux at hw
    cases hsp : isPySpace ch with
    | true =>
      simp only [hsp, if_true] at hw
      cases hae : acc.isEmpty with
      | true =>
        simp only [hae, if_true] at hw
        exact wordsAux_nospace cs [] (by simp) w hw c hc
      | false =>
        simp only [hae, Bool.false_eq_true, if_false, List.mem_cons] at hw
        rcases hw with h | h
        · subst h
          simp only [toList_mk, List.mem_reverse] at hc
          exact hacc c hc
        · exact wordsAux_nospace cs [] (by simp) w h c hc
    | false =>
      simp only [hsp, Bool.false_eq_true, if_false] at hw
      refine wordsAux_nospace cs (ch :: acc) ?_ w hw c hc
      intro x hx
      rcases List.mem_cons.mp hx with h | h
      · subst h; exact hsp
      · exact hacc x h

/-- Characters of a joined string come from the separator or from a word. -/
theorem mem_toList_joinWith (sep : String) : (ws : List String) →
    ∀ c ∈ (joinWith sep ws).toList, c ∈ sep.toList ∨ ∃ w ∈ ws, c ∈ w.toList
  | [] => by intro c hc; simp [joinWith] at hc
  | [w] => by
    intro c hc
    exact Or.inr ⟨w, List.mem_singleton.mpr rfl, hc⟩
  | w :: v :: rest => by
    intro c hc
    simp only [joinWith, toList_append, List.mem_append] at hc
    rcases hc with (h | h) | h
    · exact Or.inr ⟨w, List.mem_cons_self w _, h⟩
    · exact Or.inl h
    · rcases mem_toList_joinWith sep (v :: rest) c h with h' | ⟨w', hw', hc'⟩
      · exact Or.inl h'
      · exact Or.inr ⟨w', List.mem_cons_of_mem _ hw', hc'⟩

/-- `' '.join(text.split())` contains no newline. -/
theorem collapsed_no_nl (s : String) : '\n' ∉ (joinWith " " (pyWords s)).toList := by
  intro h
  rcases mem_toList_joinWith " " (pyWords s) '\n' h with h1 | ⟨w, hw, hc⟩
  · simp at h1
  · have := wordsAux_nospace s.toList [] (by simp) w hw '\n' hc
    simp [isPySpace] at this

theorem splitAux_no_nl : (cs : List Char) → ∀ (acc : List Char),
    (∀ c ∈ cs, c ≠ '\n') → splitAux acc cs = [String.mk (acc.reverse ++ cs)]
  | [], acc => by intro _; simp [splitAux]
  | c :: cs, acc => by
    intro h
    have hc : c ≠ '\n' := h c (List.mem_cons_self c cs)
    have hcb : (c == '\n') = false := by simp [hc]
    unfold splitAux
    rw [hcb]
    simp only [if_false, Bool.false_eq_true]
    rw [splitAux_no_nl cs (c :: acc) (fun x hx => h x (List.mem_cons_of_mem c hx))]
    simp

/-- Splitting a newline-free string on `'\n'` returns just that string. -/
theorem splitLines_no_nl (s : String) (h : '\n' ∉ s.toList) : splitLines s = [s] := by
  unfold splitLines
  rw [splitAux_no_nl s.toList [] (fun c hc => fun he => h (he ▸ hc))]
  simp

theorem cleanLines_no_nl (c : String) (h : '\n' ∉ c.toList) :
    cleanLines c = "" ∨ (cleanLines c = c ∧ lineFilter c = true) := by
  unfold cleanLines
  rw [splitLines_no_nl c h]
  by_cases hf : lineFilter c
  · right
    simp [List.filter, hf, joinWith]
  · left
    simp only [Bool.not_eq_true] at hf
    simp [List.filter, hf, joinWith]

/-- Case analysis for the pure tail of `extract_text`: the result is empty,
or it is a single surviving line that passed the line filter and contains
no newline. -/
theorem extract_cases (f : Forest) :
    extractFrom f = "" ∨ (lineFilter (extractFrom f) = true ∧ '\n' ∉ (extractFrom f).toList) := by
  unfold extractFrom
  by_cases h0 : get_text (chooseRegion f) == ""
  · left; simp [h0]
  · simp only [h0, if_false, Bool.false_eq_true]
    have hnl := collapsed_no_nl (get_text (chooseRegion f))
    rcases cleanLines_no_nl _ hnl with h | ⟨he, hf⟩
    · left; exact h
    · right; rw [he]; exact ⟨hf, hnl⟩

/-- Claim C2: for every document tree, `extract_text` returns either the
empty string or a newline-joined sequence of lines, each of which has
strictly more than 3 whitespace-delimited tokens and contains none of
"menu", "navigation", "skip to content" as a case-insensitive substring. -/
theorem c2_extract_text_lines (soup : Forest) :
    extract_text soup = "" ∨
    ∀ l ∈ splitLines (extract_text soup),
      3 < (pyWords l).length ∧
      strHas "menu" (strLower l) = false ∧
      strHas "navigation" (strLower l) = false ∧
      strHas "skip to content" (strLower l) = false := by
  rcases extract_cases (extractTextTree soup) with h | ⟨hf, hnl⟩
  · left; exact h
  · right
    intro l hl
    have he : extract_text soup = extractFrom (extractTextTree soup) := rfl
    rw [he, splitLines_no_nl _ hnl, List.mem_singleton] at hl
    subst hl
    simp only [lineFilter, Bool.and_eq_true, decide_eq_true_eq, Bool.not_eq_true',
      List.any_eq_false, List.mem_cons, List.not_mem_nil] at hf
    obtain ⟨h1, h2⟩ := hf
    exact ⟨h1, Bool.not_eq_true _ ▸ (h2 "menu" (by simp)),
      Bool.not_eq_true _ ▸ (h2 "navigation" (by simp)),
      Bool.not_eq_true _ ▸ (h2 "skip to content" (by simp))⟩

/-- Witness for C2 at a concrete page. -/
theorem c2_extract_text_lines_witness :
    3 < (pyWords "Quick brown foxes jump high").length ∧
    strHas "menu" (strLower "Quick brown foxes jump high") = false ∧
    strHas "navigation" (strLower "Quick brown foxes jump high") = false ∧
    strHas "skip to content" (strLower "Quick brown foxes jump high") = false := by
  rcases c2_extract_text_lines (fOf [Node.text "Quick brown foxes jump high"]) with h | h
  · exact absurd h (by decide)
  · exact h "Quick brown foxes jump high" (by decide)

/-- Claim C8: `extract_text` output contains no newline character, and the
collapse step leaves the line splitter with at most one line. -/
theorem c8_no_newline :
    (∀ soup : Forest, '\n' ∉ (extract_text soup).toList) ∧
    (∀ s : String, (splitLines (joinWith " " (pyWords s))).length ≤ 1) := by
  constructor
  · intro soup
    rcases extract_cases (extractTextTree soup) with h | ⟨_, hnl⟩
    · show '\n' ∉ (extractFrom (extractTextTree soup)).toList
      rw [h]; simp
    · exact hnl
  · intro s
    rw [splitLines_no_nl _ (collapsed_no_nl s)]
    simp

/-- Witness for C8 at a concrete page and a concrete string. -/
theorem c8_no_newline_witness :
    '\n' ∉ (extract_text (fOf [Node.text "alpha beta gamma delta"])).toList ∧
    (splitLines (joinWith " " (pyWords "alpha\nbeta"))).length ≤ 1 :=
  ⟨c8_no_newline.1 (fOf [Node.text "alpha beta gamma delta"]), c8_no_newline.2 "alpha\nbeta"⟩

/-! ### Pruning lemmas -/

/-- Two removal passes compose into one pass with the disjoined predicate. -/
theorem pruneForest_comp (p q : String → List String → Option String → Bool) :
    (f : Forest) →
      pruneForest p (pruneForest q f) = pruneForest (fun t c i => q t c i || p t c i) f
  | .nil => rfl
  | .cons (.text s) f => by
    simp only [pruneForest, pruneForest_comp p q f]
  | .cons (.elem t c i h ch) f => by
    cases hq : q t c i with
    | true => simp only [pruneForest, hq, Bool.true_or, if_true, pruneForest_comp p q f]
    | false =>
      cases hp : p t c i with
      | true =>
        simp only [pruneForest, hq, hp, Bool.false_or, Bool.false_eq_true, if_false, if_true,
          pruneForest_comp p q f]
      | false =>
        simp only [pruneForest, hq, hp, Bool.false_or, Bool.false_eq_true, if_false,
          pruneForest_comp p q f, pruneForest_comp p q ch]

/-- `extract_text`'s destructive filtering is idempotent on the tree. -/
theorem extractTextTree_idem (soup : Forest) :
    extractTextTree (extractTextTree soup) = extractTextTree soup := by
  have h1 : ∀ f : Forest,
      extractTextTree f = pruneForest (fun t c i => stripPred t c i || navPred t c i) f :=
    fun f => pruneForest_comp navPred stripPred f
  calc extractTextTree (extractTextTree soup)
      = pruneForest (fun t c i => stripPred t c i || navPred t c i)
          (pruneForest (fun t c i => stripPred t c i || navPred t c i) soup) := by
        rw [h1, h1]
    _ = pruneForest (fun t c i =>
          (stripPred t c i || navPred t c i) || (stripPred t c i || navPred t c i)) soup :=
        pruneForest_comp _ _ soup
    _ = pruneForest (fun t c i => stripPred t c i || navPred t c i) soup := by
        congr 1
        funext t c i
        cases h : (stripPred t c i || navPred t c i) <;> simp [h]
    _ = extractTextTree soup := (h1 soup).symm

/-- The per-node predicate a pruning pass removes. -/
def nodePred (p : String → List String → Option String → Bool) : Node → Bool
  | .text _ => false
  | .elem t c i _ _ => p t c i

/-- No node surviving a pruning pass satisfies the pruned predicate. -/
theorem subForest_prune (p : String → List String → Option String → Bool) :
    (f : Forest) → ∀ n ∈ subForest (pruneForest p f), nodePred p n = false
  | .nil => by simp [pruneForest, subForest]
  | .cons (.text s) f => by
    intro n hn
    simp only [pruneForest, subForest, List.mem_cons] at hn
    rcases hn with h | h
    · subst h; rfl
    · exact subForest_prune p f n h
  | .cons (.elem t c i h ch) f => by
    intro n hn
    cases hp : p t c i with
    | true =>
      simp only [pruneForest, hp, if_true] at hn
      exact subForest_prune p f n hn
    | false =>
      simp only [pruneForest, hp, Bool.false_eq_true, if_false, subForest, List.mem_cons,
        List.mem_append] at hn
      rcases hn with h1 | h2 | h3
      · subst h1; exact hp
      · exact subForest_prune p ch n h2
      · exact subForest_prune p f n h3

/-- Claim C9: extraction is idempotent.  The source's `extract_text` mutates
its soup into `extractTextTree soup` and returns the text computed from
that filtered tree, so a second call on the same (now filtered) soup
object returns the same string, and the mutation itself is idempotent. -/
theorem c9_extract_idempotent (soup : Forest) :
    extract_text (extractTextTree soup) = extract_text soup ∧
    extractTextTree (extractTextTree soup) = extractTextTree soup := by
  refine ⟨?_, extractTextTree_idem soup⟩
  show extractFrom (extractTextTree (extractTextTree soup)) = extractFrom (extractTextTree soup)
  rw [extractTextTree_idem]

/-- Claim C3: a `nav` tag, a class token lowercasing to `navbar`, or an `id`
containing `footer` each classify an element as chrome; no chrome node
survives `extract_text`'s filtering; and the synthetic page
`<nav>Home About</nav><p>Four token line here now</p>` extracts exactly
the paragraph text. -/
theorem c3_chrome_removed :
    (∀ (t : String) (c : List String) (i : Option String),
      t = "nav" → is_navigation_element t c i = true) ∧
    (∀ (t : String) (c : List String) (i : Option String) (cl : String),
      cl ∈ c → strLower cl = "navbar" → is_navigation_element t c i = true) ∧
    (∀ (t : String) (c : List String) (i : Option String),
      strHas "footer" (strLower (i.getD "")) = true → is_navigation_element t c i = true) ∧
    (∀ (soup : Forest) (n : Node),
      n ∈ subForest (extractTextTree soup) → nodeChrome n = false) ∧
    extract_text (fOf [Node.elem "nav" [] none none (fOf [Node.text "Home About"]),
      Node.elem "p" [] none none (fOf [Node.text "Four token line here now"])]) =
      "Four token line here now" := by
  refine ⟨?_, ?_, ?_, ?_, by decide⟩
  · intro t c i ht
    subst ht
    have h1 : navTags.contains "nav" = true := by decide
    unfold is_navigation_element
    rw [h1]
    simp only [Bool.true_or]
  · intro t c i cl hcl hlow
    have h1 : (c.map strLower).contains "navbar" = true := by
      have : "navbar" ∈ c.map strLower := List.mem_map.mpr ⟨cl, hcl, hlow⟩
      exact List.elem_eq_true_of_mem this
    have h2 : navKeywords.any (fun p => (c.map strLower).contains p) = true :=
      List.any_eq_true.mpr ⟨"navbar", by decide, h1⟩
    unfold is_navigation_element
    rw [h2]
    simp only [Bool.true_or, Bool.or_true]
  · intro t c i hid
    have h2 : navKeywords.any (fun p => strHas p (strLower (i.getD ""))) = true :=
      List.any_eq_true.mpr ⟨"footer", by decide, hid⟩
    unfold is_navigation_element
    rw [h2]
    simp only [Bool.true_or, Bool.or_true]
  · intro soup n hn
    have h := subForest_prune navPred (pruneForest stripPred soup) n hn
    cases n with
    | text s => rfl
    | elem t c i hr ch => exact h

/-- Witness for C3 at concrete elements and the synthetic page. -/
theorem c3_chrome_removed_witness :
    is_navigation_element "nav" ["x"] none = true ∧
    is_navigation_element "div" ["NavBar"] none = true ∧
    is_navigation_element "div" [] (some "page-FOOTER") = true ∧
    nodeChrome (Node.text "plain") = false ∧
    extract_text (fOf [Node.elem "nav" [] none none (fOf [Node.text "Home About"]),
      Node.elem "p" [] none none (fOf [Node.text "Four token line here now"])]) =
      "Four token line here now" :=
  ⟨c3_chrome_removed.1 "nav" ["x"] none rfl,
   c3_chrome_removed.2.1 "div" ["NavBar"] none "NavBar" (List.mem_singleton.mpr rfl) (by decide),
   c3_chrome_removed.2.2.1 "div" [] (some "page-FOOTER") (by decide),
   c3_chrome_removed.2.2.2.1 (fOf [Node.text "plain"]) (Node.text "plain") (List.mem_singleton.mpr rfl),
   c3_chrome_removed.2.2.2.2⟩

/-! ### Link-extractor lemmas -/

theorem notTrue {b : Bool} (h : (!b) = true) : b = false := by
  cases b
  · rfl
  · simp at h

theorem orFalse1 {a b : Bool} (h : (a || b) = false) : a = false := by
  cases a
  · rfl
  · simp at h

theorem orFalse2 {a b : Bool} (h : (a || b) = false) : b = false := by
  cases a
  · simpa using h
  · simp at h

theorem mem_insertLink (u x : String) (acc : List String) :
    u ∈ insertLink acc x ↔ u ∈ acc ∨ u = x := by
  unfold insertLink
  split
  · rename_i h
    constructor
    · exact Or.inl
    · rintro (hu | rfl)
      · exact hu
      · exact List.mem_of_elem_eq_true h
  · simp [List.mem_append]

theorem mem_linkStep (d : String) (vis : List String) (cur : String)
    (acc : List String) (h0 u : String) :
    u ∈ linkStep d vis cur acc h0 ↔
      u ∈ acc ∨ (h0 ≠ "" ∧ u = urljoin cur h0 ∧ is_valid_url d vis u = true) := by
  unfold linkStep
  by_cases he : h0 = ""
  · subst he
    simp
  · have he' : (h0 != "") = true := by simp [he]
    rw [he']
    simp only [if_true]
    cases hv : is_valid_url d vis (urljoin cur h0) with
    | true =>
      simp only [if_true, mem_insertLink]
      constructor
      · rintro (h | h)
        · exact Or.inl h
        · subst h; exact Or.inr ⟨he, rfl, hv⟩
      · rintro (h | ⟨_, rfl, _⟩)
        · exact Or.inl h
        · exact Or.inr rfl
    | false =>
      simp only [Bool.false_eq_true, if_false]
      constructor
      · exact Or.inl
      · rintro (h | ⟨_, rfl, hvv⟩)
        · exact h
        · rw [hv] at hvv; cases hvv

theorem mem_foldl_linkStep (d : String) (vis : List String) (cur : String) :
    (hs : List String) → ∀ (acc : List String) (u : String),
      u ∈ hs.foldl (linkStep d vis cur) acc ↔
        (u ∈ acc ∨ ∃ h, h ∈ hs ∧ h ≠ "" ∧ u = urljoin cur h ∧ is_valid_url d vis u = true)
  | [] => by simp
  | h0 :: hs => by
    intro acc u
    rw [List.foldl_cons, mem_foldl_linkStep d vis cur hs, mem_linkStep]
    constructor
    · rintro ((h | ⟨hne, heq, hval⟩) | ⟨h, hh, hne, heq, hval⟩)
      · exact Or.inl h
      · exact Or.inr ⟨h0, List.mem_cons_self h0 hs, hne, heq, hval⟩
      · exact Or.inr ⟨h, List.mem_cons_of_mem h0 hh, hne, heq, hval⟩
    · rintro (h | ⟨h, hh, hne, heq, hval⟩)
      · exact Or.inl (Or.inl h)
      · rcases List.mem_cons.mp hh with rfl | hh'
        · exact Or.inl (Or.inr ⟨hne, heq, hval⟩)
        · exact Or.inr ⟨h, hh', hne, heq, hval⟩

/-- Membership in `get_links`: exactly the resolutions of the page's
non-empty anchor hrefs that `is_valid_url` accepts. -/
theorem get_links_mem (d : String) (vis : List String) (soup : Forest) (cur u : String) :
    u ∈ get_links d vis soup cur ↔
      ∃ h, h ∈ anchorHrefsF soup ∧ h ≠ "" ∧ u = urljoin cur h ∧ is_valid_url d vis u = true := by
  unfold get_links
  rw [mem_foldl_linkStep]
  simp

/-- Pruning a forest only removes anchors, never adds them. -/
theorem anchorHrefsF_prune (p : String → List String → Option String → Bool) :
    (f : Forest) → ∀ h ∈ anchorHrefsF (pruneForest p f), h ∈ anchorHrefsF f
  | .nil => by simp [pruneForest]
  | .cons (.text s) f => by
    intro h hh
    simp only [pruneForest, anchorHrefsF] at hh ⊢
    exact anchorHrefsF_prune p f h hh
  | .cons (.elem t c i hr ch) f => by
    intro h hh
    cases hp : p t c i with
    | true =>
      simp only [pruneForest, hp, if_true] at hh
      simp only [anchorHrefsF, List.mem_append]
      exact Or.inr (Or.inr (anchorHrefsF_prune p f h hh))
    | false =>
      simp only [pruneForest, hp, Bool.false_eq_true, if_false, anchorHrefsF,
        List.mem_append] at hh ⊢
      rcases hh with h1 | h2 | h3
      · exact Or.inl h1
      · exact Or.inr (Or.inl (anchorHrefsF_prune p ch h h2))
      · exact Or.inr (Or.inr (anchorHrefsF_prune p f h h3))

/-- A page with one same-domain link, used to exercise `get_links`. -/
def ex4soup : Forest := fOf [Node.elem "a" [] none (some "http://example.com/a") Forest.nil]

/-- Counterexample to claim C4 as stated: the same tree, base URL and seed
domain give different `get_links` results for different `visited_urls`
contents, because `is_valid_url` reads the visited set. -/
theorem c4_counterexample :
    get_links "example.com" [] ex4soup "http://example.com/" ≠
      get_links "example.com" ["http://example.com/a"] ex4soup "http://example.com/" := by
  decide

/-- Claim C4 (amended): `get_links` is a pure function of (tree, baseURL,
domain, visited-set contents) — it does consult the visited set via
`is_valid_url`, never returns an already-visited URL, and calls agreeing
on visited-set membership return the same links. -/
theorem c4_get_links_depends_on_visited :
    (∀ (d : String) (v1 v2 : List String) (soup : Forest) (cur : String),
      (∀ x, v1.contains x = v2.contains x) →
      get_links d v1 soup cur = get_links d v2 soup cur) ∧
    (∀ (d : String) (v : List String) (soup : Forest) (cur u : String),
      u ∈ get_links d v soup cur → v.contains u = false) := by
  constructor
  · intro d v1 v2 soup cur h
    have hstep : linkStep d v1 cur = linkStep d v2 cur := by
      funext acc href
      unfold linkStep is_valid_url
      rw [h (urljoin cur href)]
    unfold get_links
    rw [hstep]
  · intro d v soup cur u hu
    rw [get_links_mem] at hu
    obtain ⟨h, _, _, _, hval⟩ := hu
    unfold is_valid_url at hval
    have h2 := (Bool.and_eq_true _ _).mp hval
    have h3 := (Bool.and_eq_true _ _).mp h2.1
    exact notTrue h3.2

/-- Witness for the amended C4 at concrete inputs. -/
theorem c4_get_links_depends_on_visited_witness :
    get_links "example.com" ["u1", "u2"] ex4soup "http://example.com/" =
      get_links "example.com" ["u2", "u1"] ex4soup "http://example.com/" ∧
    (["http://example.com/b"] : List String).contains "http://example.com/a" = false := by
  constructor
  · refine c4_get_links_depends_on_visited.1 "example.com" ["u1", "u2"] ["u2", "u1"]
      ex4soup "http://example.com/" ?_
    intro x
    cases h1 : x == "u1" <;> cases h2 : x == "u2" <;>
      simp [List.contains, List.elem, h1, h2]
  · exact c4_get_links_depends_on_visited.2 "example.com" ["http://example.com/b"]
      ex4soup "http://example.com/" "http://example.com/a" (by decide)

/-- A page linking a same-domain URL whose path ends in `.pdf` but whose
full URL string (with query) does not. -/
def ex5soup : Forest :=
  fOf [Node.elem "a" [] none (some "http://example.com/doc.pdf?v=1") Forest.nil]

/-- Counterexample to claim C5 as stated: a same-domain URL whose path ends
in `.pdf` is returned by `get_links` because the source's suffix check
runs on the full URL string, where the query hides the extension. -/
theorem c5_counterexample :
    netlocOf "http://example.com/doc.pdf?v=1" = "example.com" ∧
    strEnds ".pdf" (pathOf "http://example.com/doc.pdf?v=1") = true ∧
    "http://example.com/doc.pdf?v=1" ∈
      get_links "example.com" [] ex5soup "http://example.com/" := by
  decide

/-- Claim C5 (amended): every URL returned by `get_links` has netloc equal
to the seed's domain, and the asset-extension filter is a case-sensitive
suffix match on the full URL string — a returned URL never ends (as a
whole string) in `.pdf`, `.jpg`, `.png` or `.gif`, but a URL whose path
ends in an asset extension hidden by a query or fragment is not excluded. -/
theorem c5_links_same_host_ext_full_url :
    ∀ (d : String) (v : List String) (soup : Forest) (cur u : String),
      u ∈ get_links d v soup cur →
      netlocOf u = d ∧ strEnds ".pdf" u = false ∧ strEnds ".jpg" u = false ∧
        strEnds ".png" u = false ∧ strEnds ".gif" u = false := by
  intro d v soup cur u hu
  rw [get_links_mem] at hu
  obtain ⟨h, _, _, _, hval⟩ := hu
  unfold is_valid_url at hval
  have h2 := (Bool.and_eq_true _ _).mp hval
  have h3 := (Bool.and_eq_true _ _).mp h2.1
  have hext := notTrue h2.2
  have h123 := orFalse1 hext
  have h12 := orFalse1 h123
  exact ⟨eq_of_beq h3.1, orFalse1 h12, orFalse2 h12, orFalse2 h123, orFalse2 hext⟩

/-- Witness for the amended C5: the `.pdf`-path URL of `ex5soup` is accepted
and indeed has the seed's netloc and no asset suffix on the full string. -/
theorem c5_links_same_host_ext_full_url_witness :
    netlocOf "http://example.com/doc.pdf?v=1" = "example.com" ∧
    strEnds ".pdf" "http://example.com/doc.pdf?v=1" = false ∧
    strEnds ".jpg" "http://example.com/doc.pdf?v=1" = false ∧
    strEnds ".png" "http://example.com/doc.pdf?v=1" = false ∧
    strEnds ".gif" "http://example.com/doc.pdf?v=1" = false :=
  c5_links_same_host_ext_full_url "example.com" [] ex5soup "http://example.com/"
    "http://example.com/doc.pdf?v=1" (by decide)

/-! ### Traversal-engine lemmas -/

/-- A predicate preserved by each fold step is preserved by the fold. -/
theorem foldl_inv {α σ : Type} (P : σ → Prop) (g : σ → α → σ)
    (hg : ∀ s a, P s → P (g s a)) : ∀ (l : List α) (s : σ), P s → P (l.foldl g s)
  | [], _, h => h
  | a :: l, s, h => foldl_inv P g hg l (g s a) (hg s a h)

theorem contains_false_of_not_mem {l : List String} {a : String} (h : a ∉ l) :
    l.contains a = false := by
  cases hc : l.contains a
  · rfl
  · exact absurd (List.mem_of_elem_eq_true hc) h

theorem nodup_append_single {l : List String} {a : String} (h : l.Nodup) (ha : a ∉ l) :
    (l ++ [a]).Nodup := by
  induction l with
  | nil => simp
  | cons x xs ih =>
    simp only [List.cons_append, List.nodup_cons] at h ⊢
    constructor
    · intro hx
      rcases List.mem_append.mp hx with h1 | h1
      · exact h.1 h1
      · exact ha (by rw [← List.mem_singleton.mp h1]; exact List.mem_cons_self x xs)
    · exact ih h.2 (fun hm => ha (List.mem_cons_of_mem x hm))

/-- The invariant behind claim C1: the fetch log has no duplicates and every
fetched URL is already in the visited set. -/
def FetchInv (s : CrawlState) : Prop :=
  s.fetched.Nodup ∧ ∀ u ∈ s.fetched, u ∈ s.visited

theorem fetchInv_push {fet vis : List String} {url : String}
    (h1 : fet.Nodup) (h2 : ∀ u ∈ fet, u ∈ vis) (hnf : url ∉ fet) :
    (fet ++ [url]).Nodup ∧ ∀ u ∈ fet ++ [url], u ∈ url :: vis := by
  refine ⟨nodup_append_single h1 hnf, ?_⟩
  intro u hu
  rcases List.mem_append.mp hu with h | h
  · exact List.mem_cons_of_mem _ (h2 u h)
  · rw [List.mem_singleton.mp h]; exact List.mem_cons_self _ _

/-- `_crawl_url` returns at once on an already-visited URL. -/
theorem crawlUrl_visited (env : CrawlEnv) (d : String) :
    ∀ (fuel : Nat) (url : String) (s : CrawlState),
      url ∈ s.visited → crawlUrl env d fuel url s = s
  | 0, _, _, _ => rfl
  | fuel + 1, url, s, h => by
    have hc : s.visited.contains url = true := List.elem_eq_true_of_mem h
    rw [crawlUrl]
    rw [hc]
    simp

theorem not_mem_of_contains_false {l : List String} {a : String}
    (h : l.contains a = false) : a ∉ l := fun hm => by
  have h2 : l.contains a = true := List.elem_eq_true_of_mem hm
  rw [h2] at h
  cases h

/-- Unfolding of `_crawl_url` on an unvisited URL whose fetch/parse fails. -/
theorem crawlUrl_succ_none (env : CrawlEnv) (d : String) (fuel : Nat) (url : String)
    (s : CrawlState) (hv : url ∉ s.visited) (hpg : env.pages url = none) :
    crawlUrl env d (fuel + 1) url s =
      { visited := url :: s.visited, fetched := s.fetched ++ [url],
        written := s.written, errors := s.errors ++ [url] } := by
  rw [crawlUrl]
  rw [contains_false_of_not_mem hv, hpg]
  simp

/-- Unfolding of `_crawl_url` on an unvisited URL whose page arrives but
whose sink append raises. -/
theorem crawlUrl_succ_sinkfail (env : CrawlEnv) (d : String) (fuel : Nat) (url : String)
    (s : CrawlState) (soup : Forest) (hv : url ∉ s.visited)
    (hpg : env.pages url = some soup)
    (hw : (pyStrip (extract_text soup) != "" && env.sinkFails url) = true) :
    crawlUrl env d (fuel + 1) url s =
      { visited := url :: s.visited, fetched := s.fetched ++ [url],
        written := s.written, errors := s.errors ++ [url] } := by
  rw [crawlUrl]
  rw [contains_false_of_not_mem hv, hpg]
  simp [hw]

/-- Unfolding of `_crawl_url` on an unvisited URL whose page arrives and
whose sink append (if any) succeeds. -/
theorem crawlUrl_succ_ok (env : CrawlEnv) (d : String) (fuel : Nat) (url : String)
    (s : CrawlState) (soup : Forest) (hv : url ∉ s.visited)
    (hpg : env.pages url = some soup)
    (hw : (pyStrip (extract_text soup) != "" && env.sinkFails url) = false) :
    crawlUrl env d (fuel + 1) url s =
      (get_links d (url :: s.visited) (extractTextTree soup) url).foldl
        (fun t l => crawlUrl env d fuel l t)
        { visited := url :: s.visited, fetched := s.fetched ++ [url],
          written :=
            if (pyStrip (extract_text soup) != "") = true then
              s.written ++ [(url, extract_text soup)]
            else s.written,
          errors := s.errors } := by
  rw [crawlUrl]
  rw [contains_false_of_not_mem hv, hpg]
  simp only [hw, Bool.false_eq_true, if_false]

/-- `_crawl_url` preserves the fetch invariant. -/
theorem crawlUrl_inv (env : CrawlEnv) (d : String) :
    ∀ (fuel : Nat) (url : String) (s : CrawlState),
      FetchInv s → FetchInv (crawlUrl env d fuel url s)
  | 0, _, _, h => h
  | fuel + 1, url, s, h => by
    by_cases hvm : url ∈ s.visited
    · rw [crawlUrl_visited env d (fuel + 1) url s hvm]; exact h
    · have hnf : url ∉ s.fetched := fun hf => hvm (h.2 url hf)
      cases hpg : env.pages url with
      | none =>
        rw [crawlUrl_succ_none env d fuel url s hvm hpg]
        exact fetchInv_push h.1 h.2 hnf
      | some soup =>
        cases hw : (pyStrip (extract_text soup) != "" && env.sinkFails url) with
        | true =>
          rw [crawlUrl_succ_sinkfail env d fuel url s soup hvm hpg hw]
          exact fetchInv_push h.1 h.2 hnf
        | false =>
          rw [crawlUrl_succ_ok env d fuel url s soup hvm hpg hw]
          refine foldl_inv FetchInv _ (fun s' a h' => crawlUrl_inv env d fuel a s' h') _ _ ?_
          exact fetchInv_push h.1 h.2 hnf

/-- The fetch log only grows. -/
theorem fetched_mono (env : CrawlEnv) (d : String) :
    ∀ (fuel : Nat) (url : String) (s : CrawlState) (u : String),
      u ∈ s.fetched → u ∈ (crawlUrl env d fuel url s).fetched
  | 0, _, _, _, h => h
  | fuel + 1, url, s, u, h => by
    by_cases hvm : url ∈ s.visited
    · rw [crawlUrl_visited env d (fuel + 1) url s hvm]; exact h
    · cases hpg : env.pages url with
      | none =>
        rw [crawlUrl_succ_none env d fuel url s hvm hpg]
        exact List.mem_append.mpr (Or.inl h)
      | some soup =>
        cases hw : (pyStrip (extract_text soup) != "" && env.sinkFails url) with
        | true =>
          rw [crawlUrl_succ_sinkfail env d fuel url s soup hvm hpg hw]
          exact List.mem_append.mpr (Or.inl h)
        | false =>
          rw [crawlUrl_succ_ok env d fuel url s soup hvm hpg hw]
          refine foldl_inv (fun st => u ∈ st.fetched) _
            (fun s' a h' => fetched_mono env d fuel a s' u h') _ _ ?_
          exact List.mem_append.mpr (Or.inl h)

/-- Processing an unvisited URL always hands it to fetch. -/
theorem crawlUrl_fetch_self (env : CrawlEnv) (d : String) (fuel : Nat) (url : String)
    (s : CrawlState) (h : url ∉ s.visited) :
    url ∈ (crawlUrl env d (fuel + 1) url s).fetched := by
  cases hpg : env.pages url with
  | none =>
    rw [crawlUrl_succ_none env d fuel url s h hpg]
    exact List.mem_append.mpr (Or.inr (List.mem_singleton.mpr rfl))
  | some soup =>
    cases hw : (pyStrip (extract_text soup) != "" && env.sinkFails url) with
    | true =>
      rw [crawlUrl_succ_sinkfail env d fuel url s soup h hpg hw]
      exact List.mem_append.mpr (Or.inr (List.mem_singleton.mpr rfl))
    | false =>
      rw [crawlUrl_succ_ok env d fuel url s soup h hpg hw]
      refine foldl_inv (fun st => url ∈ st.fetched) _
        (fun s' a h' => fetched_mono env d fuel a s' url h') _ _ ?_
      exact List.mem_append.mpr (Or.inr (List.mem_singleton.mpr rfl))

/-- Claim C1: within one run no URL is ever passed to fetch twice — the
fetch log of a whole crawl has no duplicates, every fetched URL was first
inserted into the visited set, and `_crawl_url` returns immediately on an
already-visited URL. -/
theorem c1_fetched_at_most_once (env : CrawlEnv) (base : String) (fuel : Nat) :
    (crawl env base fuel).fetched.Nodup ∧
    (∀ u ∈ (crawl env base fuel).fetched, u ∈ (crawl env base fuel).visited) ∧
    (∀ (d : String) (fuel' : Nat) (url : String) (s : CrawlState),
      url ∈ s.visited → crawlUrl env d fuel' url s = s) := by
  have h0 : FetchInv initState := ⟨List.nodup_nil, by intro u hu; cases hu⟩
  have h := crawlUrl_inv env (netlocOf base) fuel base initState h0
  exact ⟨h.1, h.2, fun d fuel' url s hv => crawlUrl_visited env d fuel' url s hv⟩

/-- Witness for C1 on a concrete run and a concrete visited hit. -/
theorem c1_fetched_at_most_once_witness :
    (crawl ⟨fun _ => none, fun _ => false⟩ "http://w.com/" 2).fetched.Nodup ∧
    crawlUrl ⟨fun _ => none, fun _ => false⟩ "w.com" 1 "http://w.com/"
      ⟨["http://w.com/"], [], [], []⟩ = ⟨["http://w.com/"], [], [], []⟩ :=
  ⟨(c1_fetched_at_most_once ⟨fun _ => none, fun _ => false⟩ "http://w.com/" 2).1,
   (c1_fetched_at_most_once ⟨fun _ => none, fun _ => false⟩ "http://w.com/" 2).2.2
     "w.com" 1 "http://w.com/" ⟨["http://w.com/"], [], [], []⟩ (by simp)⟩

/-- Claim C7: a failed fetch/parse is logged and returns normally, the next
pending URL is processed from the resulting state, and an unvisited
sibling still reaches fetch. -/
theorem c7_transport_failure_isolated (env : CrawlEnv) (d : String) (fuel : Nat)
    (url v : String) (s : CrawlState)
    (hpg : env.pages url = none) (hv : url ∉ s.visited) :
    crawlUrl env d (fuel + 1) url s =
      { visited := url :: s.visited, fetched := s.fetched ++ [url],
        written := s.written, errors := s.errors ++ [url] } ∧
    [url, v].foldl (fun t l => crawlUrl env d (fuel + 1) l t) s =
      crawlUrl env d (fuel + 1) v
        { visited := url :: s.visited, fetched := s.fetched ++ [url],
          written := s.written, errors := s.errors ++ [url] } ∧
    (v ∉ url :: s.visited →
      v ∈ ([url, v].foldl (fun t l => crawlUrl env d (fuel + 1) l t) s).fetched) := by
  have h1 := crawlUrl_succ_none env d fuel url s hv hpg
  refine ⟨h1, ?_, ?_⟩
  · show crawlUrl env d (fuel + 1) v (crawlUrl env d (fuel + 1) url s) = _
    rw [h1]
  · intro hv2
    show v ∈ (crawlUrl env d (fuel + 1) v (crawlUrl env d (fuel + 1) url s)).fetched
    rw [h1]
    exact crawlUrl_fetch_self env d fuel v _ hv2

/-- Witness for C7: a run step on a dead URL, then its sibling. -/
theorem c7_transport_failure_isolated_witness :
    crawlUrl ⟨fun _ => none, fun _ => false⟩ "w.com" 1 "http://w.com/a" initState =
      { visited := ["http://w.com/a"], fetched := ["http://w.com/a"],
        written := [], errors := ["http://w.com/a"] } ∧
    ["http://w.com/a", "http://w.com/b"].foldl
        (fun t l => crawlUrl ⟨fun _ => none, fun _ => false⟩ "w.com" 1 l t) initState =
      crawlUrl ⟨fun _ => none, fun _ => false⟩ "w.com" 1 "http://w.com/b"
        { visited := ["http://w.com/a"], fetched := ["http://w.com/a"],
          written := [], errors := ["http://w.com/a"] } ∧
    "http://w.com/b" ∈ (["http://w.com/a", "http://w.com/b"].foldl
        (fun t l => crawlUrl ⟨fun _ => none, fun _ => false⟩ "w.com" 1 l t) initState).fetched := by
  have h := c7_transport_failure_isolated ⟨fun _ => none, fun _ => false⟩ "w.com" 0
    "http://w.com/a" "http://w.com/b" initState rfl (by simp [initState])
  exact ⟨h.1, h.2.1, h.2.2 (by simp [initState])⟩

/-! ### Claim C6: what a failing sink append does to a run -/

/-- Seed page of the C6 scenario: links to `/p1` and `/p2`, no own text. -/
def soupB6 : Forest := fOf [Node.elem "a" [] none (some "/p1") Forest.nil,
  Node.elem "a" [] none (some "/p2") Forest.nil]

/-- Page of `/p1`: a paragraph whose text passes the line filter. -/
def soupP6 : Forest :=
  fOf [Node.elem "p" [] none none (fOf [Node.text "alpha beta gamma delta epsilon"])]

/-- Page of `/p2`: a paragraph whose text passes the line filter. -/
def soupQ6 : Forest :=
  fOf [Node.elem "p" [] none none (fOf [Node.text "one two three four five"])]

/-- C6 environment: all three pages fetch and parse, the sink append fails
exactly for `/p1`'s record. -/
def env6 : CrawlEnv :=
  { pages := fun u =>
      if u == "http://s.com/" then some soupB6
      else if u == "http://s.com/p1" then some soupP6
      else if u == "http://s.com/p2" then some soupQ6
      else none,
    sinkFails := fun u => u == "http://s.com/p1" }

/-- Counterexample to claim C6 as stated: in this run the sink append for
`/p1` raises (its page fetched and parsed, its text non-empty, the sink
oracle failing), yet `/p2` is still fetched afterwards and its record is
written — the write error is handled by the per-URL `except` handler and
the run continues instead of aborting. -/
theorem c6_counterexample :
    env6.sinkFails "http://s.com/p1" = true ∧
    env6.pages "http://s.com/p1" = some soupP6 ∧
    (pyStrip (extract_text soupP6) != "") = true ∧
    crawl env6 "http://s.com/" 3 =
      { visited := ["http://s.com/p2", "http://s.com/p1", "http://s.com/"],
        fetched := ["http://s.com/", "http://s.com/p1", "http://s.com/p2"],
        written := [("http://s.com/p2", "one two three four five")],
        errors := ["http://s.com/p1"] } := by
  refine ⟨rfl, rfl, by decide, ?_⟩
  decide

/-- Claim C6 (amended): a failure of the sink's append during a URL's
processing is not fatal — `_crawl_url` catches it in the same per-URL
handler as fetch errors, logs it, abandons that URL's record and links,
and the caller's loop continues with the remaining pending URLs; an
unvisited sibling still reaches fetch. -/
theorem c6_sink_failure_not_fatal (env : CrawlEnv) (d : String) (fuel : Nat)
    (url v : String) (s : CrawlState) (soup : Forest)
    (hpg : env.pages url = some soup)
    (htxt : (pyStrip (extract_text soup) != "") = true)
    (hsink : env.sinkFails url = true)
    (hv : url ∉ s.visited) :
    crawlUrl env d (fuel + 1) url s =
      { visited := url :: s.visited, fetched := s.fetched ++ [url],
        written := s.written, errors := s.errors ++ [url] } ∧
    [url, v].foldl (fun t l => crawlUrl env d (fuel + 1) l t) s =
      crawlUrl env d (fuel + 1) v
        { visited := url :: s.visited, fetched := s.fetched ++ [url],
          written := s.written, errors := s.errors ++ [url] } ∧
    (v ∉ url :: s.visited →
      v ∈ ([url, v].foldl (fun t l => crawlUrl env d (fuel + 1) l t) s).fetched) := by
  have hw : (pyStrip (extract_text soup) != "" && env.sinkFails url) = true := by
    rw [htxt, hsink]; rfl
  have h1 := crawlUrl_succ_sinkfail env d fuel url s soup hv hpg hw
  refine ⟨h1, ?_, ?_⟩
  · show crawlUrl env d (fuel + 1) v (crawlUrl env d (fuel + 1) url s) = _
    rw [h1]
  · intro hv2
    show v ∈ (crawlUrl env d (fuel + 1) v (crawlUrl env d (fuel + 1) url s)).fetched
    rw [h1]
    exact crawlUrl_fetch_self env d fuel v _ hv2

/-- Witness for the amended C6 in the concrete C6 environment. -/
theorem c6_sink_failure_not_fatal_witness :
    crawlUrl env6 "s.com" 1 "http://s.com/p1" initState =
      { visited := ["http://s.com/p1"], fetched := ["http://s.com/p1"],
        written := [], errors := ["http://s.com/p1"] } ∧
    ["http://s.com/p1", "http://s.com/p2"].foldl
        (fun t l => crawlUrl env6 "s.com" 1 l t) initState =
      crawlUrl env6 "s.com" 1 "http://s.com/p2"
        { visited := ["http://s.com/p1"], fetched := ["http://s.com/p1"],
          written := [], errors := ["http://s.com/p1"] } ∧
    "http://s.com/p2" ∈ (["http://s.com/p1", "http://s.com/p2"].foldl
        (fun t l => crawlUrl env6 "s.com" 1 l t) initState).fetched := by
  have h := c6_sink_failure_not_fatal env6 "s.com" 0 "http://s.com/p1" "http://s.com/p2"
    initState soupP6 rfl (by decide) rfl (by simp [initState])
  exact ⟨h.1, h.2.1, h.2.2 (by decide)⟩

/-! ### Claim C10: links are harvested from the already-filtered soup -/

/-- Seed page of the C10 scenario: one link hidden inside a `<nav>` element
and one chrome-free link. -/
def soupB10 : Forest := fOf [
  Node.elem "nav" [] none none (fOf [Node.elem "a" [] none (some "/hidden") Forest.nil]),
  Node.elem "a" [] none (some "/shown") Forest.nil]

/-- C10 environment: all pages fetch and parse, the sink never fails. -/
def env10 : CrawlEnv :=
  { pages := fun u =>
      if u == "http://t.com/" then some soupB10
      else if u == "http://t.com/shown" then some (fOf [])
      else if u == "http://t.com/hidden" then some (fOf [])
      else none,
    sinkFails := fun _ => false }

/-- Claim C10: `_crawl_url` runs `get_links` on the soup only after
`extract_text` has destructively removed script/style/head/noscript/iframe
and chrome subtrees from it (in the model, on `extractTextTree soup`), so
links harvested from the filtered soup are a subset of the raw page's
links, and a hyperlink living only inside a `<nav>` element is neither
returned by the harvest nor ever fetched in a run, as the concrete
`soupB10` crawl shows. -/
theorem c10_links_harvested_after_filtering :
    (∀ (d : String) (vis : List String) (cur : String) (soup : Forest) (u : String),
      u ∈ get_links d vis (extractTextTree soup) cur → u ∈ get_links d vis soup cur) ∧
    get_links "t.com" ["http://t.com/"] (extractTextTree soupB10) "http://t.com/" =
      ["http://t.com/shown"] ∧
    get_links "t.com" ["http://t.com/"] soupB10 "http://t.com/" =
      ["http://t.com/hidden", "http://t.com/shown"] ∧
    crawl env10 "http://t.com/" 3 =
      { visited := ["http://t.com/shown", "http://t.com/"],
        fetched := ["http://t.com/", "http://t.com/shown"],
        written := [], errors := [] } ∧
    "http://t.com/hidden" ∉ (crawl env10 "http://t.com/" 3).fetched := by
  refine ⟨?_, by decide, by decide, by decide, by decide⟩
  intro d vis cur soup u hu
  rw [get_links_mem] at hu ⊢
  obtain ⟨h, hh, hne, heq, hval⟩ := hu
  exact ⟨h, anchorHrefsF_prune stripPred soup h
    (anchorHrefsF_prune navPred (pruneForest stripPred soup) h hh), hne, heq, hval⟩

/-- Witness for C10: the chrome-free link of `soupB10` survives into the
raw-soup harvest. -/
theorem c10_links_harvested_after_filtering_witness :
    "http://t.com/shown" ∈ get_links "t.com" ["http://t.com/"] soupB10 "http://t.com/" :=
  c10_links_harvested_after_filtering.1 "t.com" ["http://t.com/"] "http://t.com/" soupB10
    "http://t.com/shown" (by decide)
